import Mathlib

set_option maxRecDepth 8000

/-!
Verification development for the financial-document normalization pipeline
(`afsp_app`): shallow embedding of the amount parser, date parser,
description cleaner and the transaction interpretation agent, together with
theorems about the spec-level claims.

Conventions of the embedding:
* Python strings are modelled as `List Char` internally, with `String`
  wrappers whose names follow the source.
* Monetary values are modelled as `ℚ` (the source uses Python floats on
  decimal literals; all claims are about decimal values).
* Python `re` character classes are modelled for the ASCII range: `\w` is
  `[A-Za-z0-9_]`, `\s` is space/tab/newline/carriage-return, `\d` is `[0-9]`.
* Python's `float` builtin is modelled on the grammar actually reachable
  here: optional sign, decimal digits with an optional fractional part
  (exponents, `inf`/`nan` and underscore separators are outside the inputs
  the pipeline can produce and are not modelled).
-/

/-- Whitespace for the purposes of `strip`, `split` and `\s` (ASCII model). -/
def isWS (c : Char) : Bool := c.isWhitespace

/-- Python regex `\w` (ASCII model): letters, digits, underscore. -/
def isWordChar (c : Char) : Bool := c.isAlphanum || c = '_'

/-- Python `str.strip()`: drop leading and trailing whitespace. -/
def pyStrip (l : List Char) : List Char :=
  ((l.dropWhile isWS).reverse.dropWhile isWS).reverse

/-- Accumulator-style worker for Python `str.split()` (split on whitespace
runs, discarding empty pieces); `cur` holds the current word reversed. -/
def splitWSAux : List Char → List Char → List (List Char)
  | cur, [] => if cur.isEmpty then [] else [cur.reverse]
  | cur, c :: cs =>
    if isWS c then
      if cur.isEmpty then splitWSAux [] cs else cur.reverse :: splitWSAux [] cs
    else splitWSAux (c :: cur) cs

/-- Python `str.split()` with no arguments. -/
def splitWS (l : List Char) : List (List Char) := splitWSAux [] l

/-- Python `' '.join(words)`. -/
def joinWords : List (List Char) → List Char
  | [] => []
  | [w] => w
  | w :: w' :: ws => w ++ ' ' :: joinWords (w' :: ws)

/-- Python substring containment `needle in hay` (case sensitive). -/
def containsSub (needle : List Char) : List Char → Bool
  | [] => needle.isEmpty
  | c :: cs => needle.isPrefixOf (c :: cs) || containsSub needle cs

/-- Case-insensitive prefix test (ASCII case folding, as `re.IGNORECASE`). -/
def ciPrefix : List Char → List Char → Bool
  | [], _ => true
  | _ :: _, [] => false
  | p :: ps, c :: cs => (p.toLower = c.toLower) && ciPrefix ps cs

/-- Case-insensitive substring containment. -/
def containsSubCI (needle : List Char) : List Char → Bool
  | [] => ciPrefix needle []
  | c :: cs => ciPrefix needle (c :: cs) || containsSubCI needle cs

/-- Python `str.upper()` (ASCII model). -/
def upperAll (l : List Char) : List Char := l.map Char.toUpper

/-- Python `str.lower()` (ASCII model). -/
def lowerAll (l : List Char) : List Char := l.map Char.toLower

/-- Numeric value of a list of decimal digit characters (empty list is 0,
matching its use for the integer / fractional parts of a float literal). -/
def digitsVal (l : List Char) : ℕ :=
  l.foldl (fun acc c => 10 * acc + (c.toNat - 48)) 0

/-- Core of the Python `float` literal grammar after an optional sign:
digits with at most one decimal point and at least one digit overall. -/
def pyFloatUnsigned (l : List Char) : Option ℚ :=
  let intPart := l.takeWhile Char.isDigit
  let rest := l.dropWhile Char.isDigit
  match rest with
  | [] => if intPart.isEmpty then none else some (digitsVal intPart)
  | '.' :: frac =>
    if frac.all Char.isDigit && !(intPart.isEmpty && frac.isEmpty) then
      some ((digitsVal intPart : ℚ) + (digitsVal frac : ℚ) / (10 : ℚ) ^ frac.length)
    else none
  | _ => none

/-- Python `float(...)` on the decimal-literal subset (see header note). -/
def pyFloat (l : List Char) : Option ℚ :=
  match l with
  | '+' :: r => pyFloatUnsigned r
  | '-' :: r => (pyFloatUnsigned r).map (fun a => -a)
  | r => pyFloatUnsigned r

/-- Python's `float` builtin also strips surrounding whitespace. -/
def pyFloatBuiltin (l : List Char) : Option ℚ := pyFloat (pyStrip l)

/-- Index of the last occurrence of `ch` in `l` (Python `str.rindex`),
0 when absent (only used under a containment guard). -/
def lastIdxAux (ch : Char) : List Char → ℕ → ℕ → ℕ
  | [], _, acc => acc
  | c :: cs, i, acc => lastIdxAux ch cs (i + 1) (if c = ch then i else acc)

/-- Python `str.rindex(ch)` (total: 0 when absent). -/
def lastIdxOf (l : List Char) (ch : Char) : ℕ := lastIdxAux ch l 0 0

/-!
Embedding of `afsp_app/app/tools/amount_parser.py`.
-/

/-- The character filter of `extract_numeric_amount`:
`re.sub(r'[^\d\.\,\-]', '', cleaned)` keeps digits, `.`, `,`, `-`. -/
def keepAmountChar (c : Char) : Bool :=
  c.isDigit || c = '.' || c = ',' || c = '-'

/-- The stripped-and-filtered form of an amount string, shared by
`extract_numeric_amount` and the statements about separator handling. -/
def amountCleaned (s : String) : List Char :=
  (pyStrip s.data).filter keepAmountChar

/-- Separator resolution of `extract_numeric_amount` (source lines 123-143):
both separators present → later one is the decimal point; comma only →
decimal point when at most two digits follow it, else thousands grouping. -/
def sepResolve (c : List Char) : List Char :=
  if c.contains ',' && c.contains '.' then
    if lastIdxOf c ',' > lastIdxOf c '.' then
      (c.filter (fun x => x ≠ '.')).map (fun x => if x = ',' then '.' else x)
    else
      c.filter (fun x => x ≠ ',')
  else if c.contains ',' then
    if c.length - lastIdxOf c ',' ≤ 3 then
      c.map (fun x => if x = ',' then '.' else x)
    else
      c.filter (fun x => x ≠ ',')
  else c

/-- Written from the spec sentence of §4.4 (for comparison with `sepResolve`,
not from the code): when both comma and period are present, the separator
whose occurrence appears later in the string is the decimal point and the
other is a thousands grouping character to be discarded. -/
def specSepResolve (c : List Char) : List Char :=
  if c.contains ',' && c.contains '.' then
    let dec : Char := if lastIdxOf c ',' > lastIdxOf c '.' then ',' else '.'
    let other : Char := if dec = ',' then '.' else ','
    (c.filter (fun x => x ≠ other)).map (fun x => if x = dec then '.' else x)
  else c

/-- Embedding of `extract_numeric_amount` (source lines 98-155). -/
def extract_numeric_amount (s : String) : Option ℚ :=
  if s.data.isEmpty then none
  else
    let stripped := pyStrip s.data
    let isNeg := stripped.contains '(' && stripped.contains ')'
    match pyFloat (sepResolve (amountCleaned s)) with
    | none => none
    | some a => some (if isNeg then -|a| else a)

/-- Variant of `extract_numeric_amount` with the separator step replaced by the
spec-worded `specSepResolve`; used only in the refinement statement. -/
def extract_numeric_amount_specSep (s : String) : Option ℚ :=
  if s.data.isEmpty then none
  else
    let stripped := pyStrip s.data
    let isNeg := stripped.contains '(' && stripped.contains ')'
    match pyFloat (specSepResolve (amountCleaned s)) with
    | none => none
    | some a => some (if isNeg then -|a| else a)

/-- Indicator keyword list of `contains_credit_indicators`. -/
def creditIndicators : List String :=
  ["credit", "deposit", "refund", "payment received", "cr", "incoming",
   "salary", "interest", "reimbursement"]

/-- Indicator keyword list of `contains_debit_indicators`. -/
def debitIndicators : List String :=
  ["debit", "payment", "withdrawal", "purchase", "dr", "outgoing",
   "fee", "charge", "bill", "invoice"]

/-- Embedding of `contains_credit_indicators` (source lines 158-174). -/
def containsCreditIndicators (s : String) : Bool :=
  creditIndicators.any (fun ind => containsSub ind.data (lowerAll s.data))

/-- Embedding of `contains_debit_indicators` (source lines 177-193). -/
def containsDebitIndicators (s : String) : Bool :=
  debitIndicators.any (fun ind => containsSub ind.data (lowerAll s.data))

/-- Python `s.replace("CSV:", "")`: removes every occurrence, left to right. -/
def stripCSVAux : List Char → List Char
  | 'C' :: 'S' :: 'V' :: ':' :: rest => stripCSVAux rest
  | c :: cs => c :: stripCSVAux cs
  | [] => []

/-- The `csv_amount_str` of source line 69. -/
def stripCSVTag (s : String) : List Char := stripCSVAux s.data

/-- Python `s.startswith("CSV:")` on the combined candidate. -/
def startsWithCSV (s : String) : Bool := "CSV:".data.isPrefixOf s.data

/-- Transaction kind literal `"Credit" | "Debit"`. -/
inductive TxType where
  | Credit : TxType
  | Debit : TxType
  deriving DecidableEq, Repr

/-- The credit-column block of `parse_amount_and_type` (source lines 31-37):
the value it returns, if it returns. -/
def creditColumn (cr : Option String) : Option (ℚ × TxType) :=
  match cr with
  | none => none
  | some s =>
    if s.data.isEmpty then none
    else
      match extract_numeric_amount s with
      | some a => if a ≠ 0 then some (|a|, TxType.Credit) else none
      | none => none

/-- The debit-column block of `parse_amount_and_type` (source lines 39-45). -/
def debitColumn (db : Option String) : Option (ℚ × TxType) :=
  match db with
  | none => none
  | some s =>
    if s.data.isEmpty then none
    else
      match extract_numeric_amount s with
      | some a => if a ≠ 0 then some (-|a|, TxType.Debit) else none
      | none => none

/-- The combined-amount block of `parse_amount_and_type` for a truthy
candidate (source lines 48-93); every path inside the block returns. -/
def combinedAmount (s : String) : Option ℚ × Option TxType :=
  let isCredit := containsCreditIndicators s
  let isDebit := containsDebitIndicators s
  match extract_numeric_amount s with
  | none => (none, none)
  | some a =>
    if a < 0 || isDebit then (some (-|a|), some TxType.Debit)
    else if isCredit then (some |a|, some TxType.Credit)
    else if startsWithCSV s then
      match pyFloatBuiltin ((stripCSVTag s).filter (fun c => c ≠ ',')) with
      | some csvAmount =>
        if 0 < csvAmount then (some csvAmount, some TxType.Credit)
        else (some csvAmount, some TxType.Debit)
      | none =>
        if 0 < a then (some a, some TxType.Credit)
        else (some a, some TxType.Debit)
    else
      if 0 < a then (some (-a), some TxType.Debit)
      else (some a, some TxType.Debit)

/-- Embedding of `parse_amount_and_type` (source lines 13-95). -/
def parse_amount_and_type (amt cr db : Option String) :
    Option ℚ × Option TxType :=
  match creditColumn cr with
  | some (a, t) => (some a, some t)
  | none =>
    match debitColumn db with
    | some (a, t) => (some a, some t)
    | none =>
      match amt with
      | some s => if s.data.isEmpty then (none, none) else combinedAmount s
      | none => (none, none)

/-!
Embedding of `afsp_app/app/tools/date_parser.py`.
-/

/-- A Python `datetime.date` value. -/
structure PyDate where
  year : ℕ
  month : ℕ
  day : ℕ
  deriving DecidableEq, Repr

/-- Gregorian leap-year rule (as Python's `calendar`/`datetime`). -/
def isLeap (y : ℕ) : Bool := (y % 4 = 0 && y % 100 ≠ 0) || y % 400 = 0

/-- Days in a month of a given year. -/
def daysInMonth (y m : ℕ) : ℕ :=
  if m = 2 then (if isLeap y then 29 else 28)
  else if m = 4 || m = 6 || m = 9 || m = 11 then 30
  else 31

/-- Validity of a calendar date as accepted by `datetime.date`. -/
def validDate (y m d : ℕ) : Bool :=
  1 ≤ y && y ≤ 9999 && 1 ≤ m && m ≤ 12 && 1 ≤ d && d ≤ daysInMonth y m

/-- Model of the external `dateutil.parser.parse` on purely numeric
separator-delimited triples `A sep B sep YYYY` (the shape the claims
quantify over): with `dayfirst=False` the first component is preferred as
the month, falling back to the swapped reading when that is not a valid
calendar date; with `dayfirst=True` the preference is reversed. -/
def dateutilNumericParse (dayfirst : Bool) (a b y : ℕ) : Option PyDate :=
  if dayfirst then
    if validDate y b a then some ⟨y, b, a⟩
    else if validDate y a b then some ⟨y, a, b⟩
    else none
  else
    if validDate y a b then some ⟨y, a, b⟩
    else if validDate y b a then some ⟨y, b, a⟩
    else none

/-- The date separators `[/\-.]` of the date patterns. -/
def isDateSep (c : Char) : Bool := c = '/' || c = '-' || c = '.'

/-- Decompose a string that consists exactly of `digits sep digits sep
digits` with 1-2/1-2/4 digit groups (the `A/B/YYYY` shape) into its three
numeric components. -/
def numericTriple (l : List Char) : Option (ℕ × ℕ × ℕ) :=
  let d1 := l.takeWhile Char.isDigit
  match l.dropWhile Char.isDigit with
  | s1 :: r1 =>
    if isDateSep s1 then
      let d2 := r1.takeWhile Char.isDigit
      match r1.dropWhile Char.isDigit with
      | s2 :: r2 =>
        if isDateSep s2 then
          let d3 := r2.takeWhile Char.isDigit
          if (r2.dropWhile Char.isDigit).isEmpty
              && 1 ≤ d1.length && d1.length ≤ 2
              && 1 ≤ d2.length && d2.length ≤ 2 && d3.length = 4 then
            some (digitsVal d1, digitsVal d2, digitsVal d3)
          else none
        else none
      | [] => none
    else none
  | [] => none

/-- Character class `[\w\s/\-\.]` kept by the trailing-noise removal
`re.sub(r'[^\w\s/\-\.]+$', '', date_str)` of `parse_date_robustly`. -/
def keepTrailingChar (c : Char) : Bool :=
  isWordChar c || isWS c || isDateSep c

/-- Removal of the trailing run of noise characters (source line 33). -/
def stripTrailingNoise (l : List Char) : List Char :=
  (l.reverse.dropWhile (fun c => !keepTrailingChar c)).reverse

/-- Embedding of `parse_date_robustly` (source lines 16-50), on the numeric-triple
subset of the external dateutil parser modelled by
`dateutilNumericParse`; inputs outside that subset map to failure. -/
def parse_date_robustly (s : String) : Option PyDate :=
  if s.data.isEmpty then none
  else
    let t := stripTrailingNoise (pyStrip s.data)
    match numericTriple t with
    | none => none
    | some (a, b, y) =>
      match dateutilNumericParse false a b y with
      | some d => some d
      | none => dateutilNumericParse true a b y

/-- First-success choice over a list of alternatives, in order; models the
backtracking preference order of a regex alternation or quantifier. -/
def firstSome (f : α → Option β) : List α → Option β
  | [] => none
  | n :: ns =>
    match f n with
    | some r => some r
    | none => firstSome f ns

/-- Consume exactly `n` decimal digits, returning the rest. -/
def chompDigits : ℕ → List Char → Option (List Char)
  | 0, l => some l
  | _ + 1, [] => none
  | n + 1, c :: cs => if c.isDigit then chompDigits n cs else none

/-- Consume one date separator `[/\-.]`. -/
def chompSep : List Char → Option (List Char)
  | c :: cs => if isDateSep c then some cs else none
  | [] => none

/-- Consume a case-insensitive literal, returning the rest. -/
def chompCI : List Char → List Char → Option (List Char)
  | [], l => some l
  | _ :: _, [] => none
  | p :: ps, c :: cs => if p.toLower = c.toLower then chompCI ps cs else none

/-- Consume `\s+` (greedy, at least one whitespace character). -/
def chompWSplus : List Char → Option (List Char)
  | c :: cs => if isWS c then some (cs.dropWhile isWS) else none
  | [] => none

/-- Word-boundary `\b` before a word character, given the previous char. -/
def startBoundary : Option Char → Bool
  | none => true
  | some c => !isWordChar c

/-- Word-boundary `\b` after a word character, given the remaining input. -/
def endBoundary : List Char → Bool
  | [] => true
  | c :: _ => !isWordChar c

/-- Matcher for `\b\d{1,2}[/\-.]\d{1,2}[/\-.]\d{2,4}\b` at the current
position; returns the remaining input on success. -/
def tryNumericDatePat (prev : Option Char) (l : List Char) : Option (List Char) :=
  if !startBoundary prev then none
  else
    firstSome (fun n1 => (chompDigits n1 l).bind fun l1 =>
      (chompSep l1).bind fun l2 =>
        firstSome (fun n2 => (chompDigits n2 l2).bind fun l3 =>
          (chompSep l3).bind fun l4 =>
            firstSome (fun n3 => (chompDigits n3 l4).bind fun l5 =>
              if endBoundary l5 then some l5 else none) [4, 3, 2]) [2, 1]) [2, 1]

/-- Matcher for the ISO pattern `\b\d{4}[/\-.]\d{1,2}[/\-.]\d{1,2}\b`. -/
def tryIsoDatePat (prev : Option Char) (l : List Char) : Option (List Char) :=
  if !startBoundary prev then none
  else
    (chompDigits 4 l).bind fun l1 =>
      (chompSep l1).bind fun l2 =>
        firstSome (fun n2 => (chompDigits n2 l2).bind fun l3 =>
          (chompSep l3).bind fun l4 =>
            firstSome (fun n3 => (chompDigits n3 l4).bind fun l5 =>
              if endBoundary l5 then some l5 else none) [2, 1]) [2, 1]

/-- The month-name alternatives `Jan(?:uary)?|...|Dec(?:ember)?` in the
regex's preference order (each long form before its abbreviation). -/
def monthAlternatives : List (List Char) :=
  ["january".data, "jan".data, "february".data, "feb".data,
   "march".data, "mar".data, "april".data, "apr".data, "may".data,
   "june".data, "jun".data, "july".data, "jul".data,
   "august".data, "aug".data, "september".data, "sep".data,
   "october".data, "oct".data, "november".data, "nov".data,
   "december".data, "dec".data]

/-- Matcher for `\b(?:MONTH)\s+\d{1,2},?\s+\d{4}\b` (month-name first). -/
def tryMonthFirstPat (prev : Option Char) (l : List Char) : Option (List Char) :=
  if !startBoundary prev then none
  else
    firstSome (fun m => (chompCI m l).bind fun l1 =>
      (chompWSplus l1).bind fun l2 =>
        firstSome (fun nd => (chompDigits nd l2).bind fun l3 =>
          (match l3 with
           | ',' :: r =>
             ((chompWSplus r).bind fun l5 => (chompDigits 4 l5).bind fun l6 =>
               if endBoundary l6 then some l6 else none) <|>
             ((chompWSplus l3).bind fun l5 => (chompDigits 4 l5).bind fun l6 =>
               if endBoundary l6 then some l6 else none)
           | _ =>
             (chompWSplus l3).bind fun l5 => (chompDigits 4 l5).bind fun l6 =>
               if endBoundary l6 then some l6 else none)) [2, 1])
      monthAlternatives

/-- Matcher for `\b\d{1,2}\s+(?:MONTH)\s+\d{4}\b` (day first). -/
def tryDayMonthPat (prev : Option Char) (l : List Char) : Option (List Char) :=
  if !startBoundary prev then none
  else
    firstSome (fun nd => (chompDigits nd l).bind fun l1 =>
      (chompWSplus l1).bind fun l2 =>
        firstSome (fun m => (chompCI m l2).bind fun l3 =>
          (chompWSplus l3).bind fun l4 =>
            (chompDigits 4 l4).bind fun l5 =>
              if endBoundary l5 then some l5 else none)
          monthAlternatives) [2, 1]

/-- Model of `re.findall` for one pattern: leftmost, non-overlapping matches,
resuming after each match; fuelled by the input length. -/
def scanAux (tp : Option Char → List Char → Option (List Char)) :
    ℕ → Option Char → List Char → List (List Char)
  | 0, _, _ => []
  | _ + 1, _, [] => []
  | fuel + 1, prev, c :: cs =>
    match tp prev (c :: cs) with
    | some rest =>
      let n := (c :: cs).length - rest.length
      if n = 0 then scanAux tp fuel (some c) cs
      else
        ((c :: cs).take n) ::
          scanAux tp fuel (((c :: cs).take n).getLast?) ((c :: cs).drop n)
    | none => scanAux tp fuel (some c) cs

/-- All matches of one pattern in the text. -/
def findall (tp : Option Char → List Char → Option (List Char))
    (l : List Char) : List (List Char) :=
  scanAux tp l.length none l

/-- Embedding of `extract_dates_from_text` (source lines 53-82): the concatenated
`re.findall` results of the four date-shaped patterns. -/
def extract_dates_from_text (s : String) : List String :=
  if s.data.isEmpty then []
  else
    ((findall tryNumericDatePat s.data) ++ (findall tryMonthFirstPat s.data) ++
        (findall tryDayMonthPat s.data) ++ (findall tryIsoDatePat s.data)).map
      (fun l => String.mk l)

/-!
Embedding of `afsp_app/app/tools/description_cleaner.py`.
-/

/-- The `MERCHANT_NORMALIZATIONS` dictionary, in insertion (iteration)
order. -/
def MERCHANT_NORMALIZATIONS : List (String × String) :=
  [("AMZN", "Amazon"), ("AMAZONCOM", "Amazon"), ("AMAZON.COM", "Amazon"),
   ("AMZNMKTPLCE", "Amazon Marketplace"), ("WM", "Walmart"),
   ("WALMART", "Walmart"), ("WALM SUPERCENTER", "Walmart"),
   ("SQ", "Square"), ("SQ *", "Square"), ("STARBUCKS", "Starbucks"),
   ("SBUX", "Starbucks"), ("MCDONALD", "McDonald\x27s"),
   ("MCD", "McDonald\x27s"), ("COSTCO", "Costco"),
   ("COSTCO WHSE", "Costco"), ("COSTCO GAS", "Costco Gas"),
   ("UBER", "Uber"), ("UBER *", "Uber"), ("UBER EATS", "Uber Eats"),
   ("UBEREATS", "Uber Eats"), ("DOORDASH", "DoorDash"),
   ("GRUBHUB", "Grubhub"), ("INSTACART", "Instacart"), ("LYFT", "Lyft"),
   ("LYFT *", "Lyft"), ("VENMO", "Venmo"), ("PAYPAL", "PayPal"),
   ("PAYPAL *", "PayPal"), ("ZELLE", "Zelle"), ("CASH APP", "Cash App"),
   ("SQC*CASH APP", "Cash App"), ("TARGET", "Target"), ("TGT", "Target"),
   ("TGTCM", "Target"), ("KROGER", "Kroger"),
   ("TRADER JOE", "Trader Joe\x27s"), ("WHOLEFDS", "Whole Foods"),
   ("WHOLE FOODS", "Whole Foods"), ("AMZN WHOLE FOODS", "Whole Foods"),
   ("NETFLIX", "Netflix"), ("NFLX", "Netflix"), ("SPOTIFY", "Spotify"),
   ("HULU", "Hulu"), ("DISNEY PLUS", "Disney+"), ("DISNEY+", "Disney+")]

/-- The `COMMON_PREFIX_SUFFIX` phrase list, in order. -/
def COMMON_PREFIX_SUFFIX : List String :=
  ["POS TRANSACTION", "POS PURCHASE", "DEBIT CARD PURCHASE",
   "ATM WITHDRAWAL", "ONLINE PAYMENT", "E-TRANSFER", "AUTOPAY",
   "ACH PAYMENT", "ACH DEPOSIT", "DIRECT DEPOSIT", "DIRECT DEBIT",
   "PURCHASE AUTHORIZED ON", "RECURRING PAYMENT", "CHECK CARD",
   "CHECK #", "CKCD", "CHECKCARD", "PAYPAL DES:INST XFER",
   "PAYPAL INST XFER", "PYMT ID:", "REF #", "REFERENCE #",
   "TRANSACTION #", "AUTHORIZATION CODE"]

/-- Model of the pass `re.sub(f"{prefix}\\s*", "", d, flags=IGNORECASE)` for a literal
phrase: replace every case-insensitive occurrence of the phrase together
with the following whitespace run; fuelled by the input length (one unit
per position, each step consumes at least one character). -/
def phraseSubAux (p : List Char) : ℕ → List Char → List Char
  | 0, l => l
  | _ + 1, [] => []
  | fuel + 1, c :: cs =>
    if !p.isEmpty && ciPrefix p (c :: cs) then
      phraseSubAux p fuel ((cs.drop (p.length - 1)).dropWhile isWS)
    else c :: phraseSubAux p fuel cs

/-- One boilerplate-phrase removal pass of `clean_description`
(source lines 107-109). -/
def subPhraseWS (p : String) (l : List Char) : List Char :=
  phraseSubAux p.data l.length l

/-- Shape test for a `$`-anchored match of `\d{2}/\d{2}/\d{2,4}\b$`:
does this suffix consist exactly of a trailing date? -/
def dateEndShape (l : List Char) : Bool :=
  match l with
  | a :: b :: '/' :: c :: d :: '/' :: rest =>
    a.isDigit && b.isDigit && c.isDigit && d.isDigit &&
      rest.all Char.isDigit && 2 ≤ rest.length && rest.length ≤ 4
  | _ => false

/-- Leftmost start of a match of `\b\d{2}/\d{2}/\d{2,4}\b$`. -/
def findDateEndAux : Option Char → List Char → ℕ → Option ℕ
  | _, [], _ => none
  | prev, c :: cs, i =>
    if startBoundary prev && dateEndShape (c :: cs) then some i
    else findDateEndAux (some c) cs (i + 1)

/-- Position of the trailing-date match of source line 112, if any. -/
def findDateEnd (l : List Char) : Option ℕ := findDateEndAux none l 0

/-- Model of `re.sub(r'\b\d{2}/\d{2}/\d{2,4}\b$', '', d)` (source line 112). -/
def stripDateAtEnd (l : List Char) : List Char :=
  match findDateEnd l with
  | some i => l.take i
  | none => l

/-- Shape test for a `$`-anchored match of `\d{6,}\b$`. -/
def idEndShape (l : List Char) : Bool :=
  6 ≤ l.length && l.all Char.isDigit

/-- Leftmost start of a match of `\b\d{6,}\b$`. -/
def findIdEndAux : Option Char → List Char → ℕ → Option ℕ
  | _, [], _ => none
  | prev, c :: cs, i =>
    if startBoundary prev && idEndShape (c :: cs) then some i
    else findIdEndAux (some c) cs (i + 1)

/-- Position of the trailing-id match of source line 113, if any. -/
def findIdEnd (l : List Char) : Option ℕ := findIdEndAux none l 0

/-- Model of `re.sub(r'\b\d{6,}\b$', '', d)` (source line 113). -/
def stripIdAtEnd (l : List Char) : List Char :=
  match findIdEnd l with
  | some i => l.take i
  | none => l

/-- Leftmost start of a match of `#\d{4,}$`. -/
def findHashEndAux : List Char → ℕ → Option ℕ
  | [], _ => none
  | c :: cs, i =>
    if c = '#' && cs.all Char.isDigit && 4 ≤ cs.length then some i
    else findHashEndAux cs (i + 1)

/-- Position of the trailing `#`-number match of source line 114, if any. -/
def findHashEnd (l : List Char) : Option ℕ := findHashEndAux l 0

/-- Model of `re.sub(r'#\d{4,}$', '', d)` (source line 114). -/
def stripHashAtEnd (l : List Char) : List Char :=
  match findHashEnd l with
  | some i => l.take i
  | none => l

/-- Model of `re.sub(r'\s+', ' ', d)`: replace each whitespace run by one space. -/
def collapseRuns : List Char → List Char
  | [] => []
  | [c] => if isWS c then [' '] else [c]
  | c1 :: c2 :: cs =>
    if isWS c1 && isWS c2 then collapseRuns (c2 :: cs)
    else (if isWS c1 then ' ' else c1) :: collapseRuns (c2 :: cs)

/-- Word boundary `\b` of `re` between two (optional) subject positions. -/
def boundaryAt (prev cur : Option Char) : Bool :=
  (match prev with | some c => isWordChar c | none => false) !=
    (match cur with | some c => isWordChar c | none => false)

/-- Model of `re.sub(r'\b' + re.escape(p) + r'\b', rep, d, flags=IGNORECASE)`:
replace each boundary-delimited, case-insensitive occurrence of the
literal `p`, scanning left to right over the original string. -/
def wordSubAux (p rep : List Char) : ℕ → Option Char → List Char → List Char
  | 0, _, l => l
  | _ + 1, _, [] => []
  | fuel + 1, prev, c :: cs =>
    let matched := (c :: cs).take p.length
    let rest := (c :: cs).drop p.length
    if !p.isEmpty && ciPrefix p (c :: cs) && boundaryAt prev (some c) &&
        boundaryAt matched.getLast? rest.head? then
      rep ++ wordSubAux p rep fuel matched.getLast? rest
    else c :: wordSubAux p rep fuel (some c) cs

/-- One merchant-name replacement of source lines 122-127. -/
def wordSubCI (p rep : String) (l : List Char) : List Char :=
  wordSubAux p.data rep.data l.length none l

/-- Python `str.capitalize()`: first character upper, rest lower (ASCII). -/
def pyCapitalize : List Char → List Char
  | [] => []
  | c :: cs => c.toUpper :: cs.map Char.toLower

/-- Python `str.isupper()` (ASCII model): at least one cased character and
no lower-case character. -/
def pyIsUpper (w : List Char) : Bool :=
  w.any Char.isAlpha && w.all (fun c => !c.isLower)

/-- The per-word step of the title-casing loop (source lines 131-138):
keep all-uppercase words of length > 1 as acronyms, capitalize the rest. -/
def capWord (w : List Char) : List Char :=
  if pyIsUpper w && w.length > 1 then w else pyCapitalize w

/-- The body of `clean_description` for a truthy input
(source lines 104-142). -/
def cleanDescCore (l : List Char) : List Char :=
  let d0 := pyStrip l
  let d1 := COMMON_PREFIX_SUFFIX.foldl (fun d p => subPhraseWS p d) d0
  let d2 := stripDateAtEnd d1
  let d3 := stripIdAtEnd d2
  let d4 := stripHashAtEnd d3
  let d5 := pyStrip (collapseRuns d4)
  let d6 := MERCHANT_NORMALIZATIONS.foldl
    (fun d pr => if containsSub pr.1.data (upperAll d) then wordSubCI pr.1 pr.2 d else d) d5
  joinWords ((splitWS d6).map capWord)

/-- Embedding of `clean_description` (source lines 90-142). -/
def clean_description (s : String) : String :=
  if s.data.isEmpty then "" else String.mk (cleanDescCore s.data)

/-!
Embedding of the schemas (`afsp_app/app/schemas.py`) and of
`TransactionInterpretationAgent._normalize_transaction`
(`afsp_app/app/agents/transaction_interpretation_agent.py`).
-/

/-- Embedding of `ExtractedTransaction`: the candidate fields consumed by
`_normalize_transaction` (the diagnostic fields `unique_id`,
`confidence_score` and `extraction_errors` are not read by it and are
omitted). -/
structure ExtractedTransaction where
  potential_date_str : Option String
  potential_description_str : Option String
  potential_amount_str : Option String
  potential_credit_str : Option String
  potential_debit_str : Option String
  deriving DecidableEq, Repr

/-- Embedding of `NormalizedTransaction` (the generated `transaction_id` UUID is
omitted). -/
structure NormalizedTransaction where
  date : PyDate
  description : String
  amount : ℚ
  transaction_type : TxType
  original_source_file : String
  processing_notes : List String
  deriving DecidableEq, Repr

/-- Python `a or b` on optional strings (empty string is falsy). -/
def pyOrStr (a b : Option String) : Option String :=
  match a with
  | some s => if s.data.isEmpty then b else some s
  | none => b

/-- Rendering of an optional string in an f-string (`None` when absent). -/
def pyShowOpt : Option String → String
  | some s => s
  | none => "None"

/-- Embedding of `_normalize_transaction` (agent source lines 201-266) for one
extracted transaction and the source file name of its raw record. -/
def normalizeTransaction (e : ExtractedTransaction) (sourceFile : String) :
    Option NormalizedTransaction :=
  let parsedDate : Option PyDate :=
    match e.potential_date_str with
    | some ds => if ds.data.isEmpty then none else parse_date_robustly ds
    | none => none
  match parsedDate with
  | none => none
  | some d =>
    let dateNote : List String :=
      match e.potential_date_str with
      | some ds => ["Date parsed from: " ++ ds]
      | none => []
    match parse_amount_and_type e.potential_amount_str e.potential_credit_str
        e.potential_debit_str with
    | (some a, some t) =>
      let amountNote :=
        "Amount parsed from: " ++
          pyShowOpt (pyOrStr e.potential_amount_str
            (pyOrStr e.potential_credit_str e.potential_debit_str))
      let descr0 : String :=
        match e.potential_description_str with
        | some s => if s.data.isEmpty then "" else clean_description s
        | none => ""
      let descrNote : List String :=
        match e.potential_description_str with
        | some s =>
          if s.data.isEmpty then [] else ["Description cleaned from: " ++ s]
        | none => []
      let descr :=
        if descr0.data.isEmpty then "Unknown Transaction" else descr0
      let defaultNote : List String :=
        if descr0.data.isEmpty then
          ["Used default description due to missing or invalid description"]
        else []
      some
        { date := d
          description := descr
          amount := a
          transaction_type := t
          original_source_file := sourceFile
          processing_notes :=
            dateNote ++ [amountNote] ++ descrNote ++ defaultNote }
    | _ => none

/-- The primary date candidate mined from free text by
`_extract_transaction_fields` (agent source lines 114-115). -/
def mineDateCandidate (text : String) : Option String :=
  (extract_dates_from_text text).head?

/-- No two adjacent whitespace characters. -/
def noAdjWS : List Char → Bool
  | c1 :: c2 :: cs => !(isWS c1 && isWS c2) && noAdjWS (c2 :: cs)
  | _ => true

/-- Whitespace-normal form: no leading or trailing whitespace and no two
consecutive whitespace characters; the C10 property. -/
def wsNormalized (l : List Char) : Bool :=
  (match l.head? with | some c => !isWS c | none => true) &&
    (match l.getLast? with | some c => !isWS c | none => true) && noAdjWS l

/-- Every whitespace character is a plain space. -/
def allWSSpace (l : List Char) : Bool :=
  l.all (fun c => !isWS c || c = ' ')

/-!
Helper lemmas about characters.
-/

/-- Recover the code point of a `Char.ofNat` below the surrogate range. -/
theorem char_toNat_ofNat {n : ℕ} (h : n < 55296) : (Char.ofNat n).toNat = n := by
  rw [Char.ofNat, dif_pos (Or.inl h)]
  rfl

/-- Characters with equal code points are equal. -/
theorem char_eq_of_toNat_eq {c d : Char} (h : c.toNat = d.toNat) : c = d :=
  Char.ext (UInt32.toNat.inj h)

/-- Character equality is code-point equality. -/
theorem char_eq_iff_toNat {c d : Char} : c = d ↔ c.toNat = d.toNat :=
  ⟨fun h => h ▸ rfl, char_eq_of_toNat_eq⟩

/-- ASCII upper-casing is idempotent. -/
theorem toUpper_toUpper (c : Char) : c.toUpper.toUpper = c.toUpper := by
  unfold Char.toUpper
  by_cases h : c.toNat ≥ 97 ∧ c.toNat ≤ 122
  · rw [if_pos h]
    have h2 : (Char.ofNat (c.toNat - 32)).toNat = c.toNat - 32 :=
      char_toNat_ofNat (by omega)
    rw [if_neg (by omega)]
  · rw [if_neg h, if_neg h]

/-- ASCII lower-casing is idempotent. -/
theorem toLower_toLower (c : Char) : c.toLower.toLower = c.toLower := by
  unfold Char.toLower
  by_cases h : c.toNat ≥ 65 ∧ c.toNat ≤ 90
  · rw [if_pos h]
    have h2 : (Char.ofNat (c.toNat + 32)).toNat = c.toNat + 32 :=
      char_toNat_ofNat (by omega)
    rw [if_neg (by omega)]
  · rw [if_neg h, if_neg h]

/-- Membership of the whitespace class in terms of code points. -/
theorem isWS_iff {c : Char} :
    isWS c = true ↔ (c.toNat = 32 ∨ c.toNat = 9 ∨ c.toNat = 13 ∨ c.toNat = 10) := by
  simp only [isWS, Char.isWhitespace, Bool.or_eq_true, decide_eq_true_eq,
    char_eq_iff_toNat]
  rw [show (' ').toNat = 32 from rfl, show ('\t').toNat = 9 from rfl,
    show ('\r').toNat = 13 from rfl, show ('\n').toNat = 10 from rfl]
  tauto

/-- Upper-casing does not change whitespace-ness. -/
theorem isWS_toUpper (c : Char) : isWS c.toUpper = isWS c := by
  unfold Char.toUpper
  by_cases h : c.toNat ≥ 97 ∧ c.toNat ≤ 122
  · rw [if_pos h]
    have h2 : (Char.ofNat (c.toNat - 32)).toNat = c.toNat - 32 :=
      char_toNat_ofNat (by omega)
    have hl : isWS (Char.ofNat (c.toNat - 32)) = false := by
      rw [← Bool.not_eq_true, isWS_iff]
      omega
    have hr : isWS c = false := by
      rw [← Bool.not_eq_true, isWS_iff]
      omega
    rw [hl, hr]
  · rw [if_neg h]

/-- Lower-casing does not change whitespace-ness. -/
theorem isWS_toLower (c : Char) : isWS c.toLower = isWS c := by
  unfold Char.toLower
  by_cases h : c.toNat ≥ 65 ∧ c.toNat ≤ 90
  · rw [if_pos h]
    have h2 : (Char.ofNat (c.toNat + 32)).toNat = c.toNat + 32 :=
      char_toNat_ofNat (by omega)
    have hl : isWS (Char.ofNat (c.toNat + 32)) = false := by
      rw [← Bool.not_eq_true, isWS_iff]
      omega
    have hr : isWS c = false := by
      rw [← Bool.not_eq_true, isWS_iff]
      omega
    rw [hl, hr]
  · rw [if_neg h]

/-!
Lemmas about the amount parser, and the claims about it.
-/

/-- Mapping dots to dots is the identity. -/
theorem map_if_dot_id (l : List Char) :
    l.map (fun x => if x = '.' then '.' else x) = l := by
  have h : ∀ x ∈ l, (fun x => if x = '.' then '.' else x) x = x := by
    intro x _
    by_cases hx : x = '.' <;> simp [hx]
  rw [List.map_congr_left h]
  exact List.map_id' l

/-- On strings with both separators, the code's separator resolution is the
spec's later-separator-wins rule. -/
theorem sepResolve_eq_spec {c : List Char} (h1 : c.contains ',' = true)
    (h2 : c.contains '.' = true) : sepResolve c = specSepResolve c := by
  unfold sepResolve specSepResolve
  rw [h1, h2]
  by_cases hcmp : lastIdxOf c ',' > lastIdxOf c '.'
  · simp only [Bool.and_self, if_true, if_pos hcmp]
  · simp only [Bool.and_self, if_true, if_neg hcmp]
    norm_num
    exact (map_if_dot_id _).symm
/-- C5: for amount strings containing both a comma and a period, the
separator appearing later is treated as the decimal point and the other is
discarded: the code-level extractor agrees with the spec-worded one, and
the two cited examples both parse to 1234.56. -/
theorem c5_later_separator_is_decimal :
    (∀ s : String, (amountCleaned s).contains ',' = true →
      (amountCleaned s).contains '.' = true →
      extract_numeric_amount s = extract_numeric_amount_specSep s) ∧
    extract_numeric_amount "1.234,56" = some (123456 / 100) ∧
    extract_numeric_amount "1,234.56" = some (123456 / 100) := by
  refine ⟨fun s h1 h2 => ?_, by with_unfolding_all rfl, by with_unfolding_all rfl⟩
  unfold extract_numeric_amount extract_numeric_amount_specSep
  rw [sepResolve_eq_spec h1 h2]

/-- Witness for C5 at the concrete European-format example. -/
theorem c5_later_separator_is_decimal_witness :
    extract_numeric_amount "1.234,56" = extract_numeric_amount_specSep "1.234,56" :=
  c5_later_separator_is_decimal.1 "1.234,56" (by decide) (by decide)
/-- C2 counterexample: the combined candidate `"0"` parses to magnitude
exactly zero, yet the normalizer does not fail: it returns `(0.0, Debit)`
rather than `(None, None)`. -/
theorem c2_zero_combined_counterexample :
    extract_numeric_amount "0" = some 0 ∧
    parse_amount_and_type (some "0") none none = (some 0, some TxType.Debit) ∧
    parse_amount_and_type (some "0") none none ≠ (none, none) := by
  have h : parse_amount_and_type (some "0") none none =
      (some 0, some TxType.Debit) := by with_unfolding_all rfl
  exact ⟨by with_unfolding_all rfl, h, by rw [h]; simp⟩

/-- C2 amended: if the credit and debit candidates are each absent, empty,
unparseable or zero, and the combined candidate is absent, empty or
unparseable, then the normalizer fails with `(None, None)`; but a combined
candidate that parses to exactly zero is not rejected: it yields
`(0.0, Debit)`. -/
theorem c2_amended_failure_condition :
    (∀ amt cr db : Option String,
      (∀ s, cr = some s → s.data.isEmpty = false →
        extract_numeric_amount s = none ∨ extract_numeric_amount s = some 0) →
      (∀ s, db = some s → s.data.isEmpty = false →
        extract_numeric_amount s = none ∨ extract_numeric_amount s = some 0) →
      (∀ s, amt = some s → s.data.isEmpty = false →
        extract_numeric_amount s = none) →
      parse_amount_and_type amt cr db = (none, none)) ∧
    parse_amount_and_type (some "0") none none = (some 0, some TxType.Debit) := by
  constructor
  · intro amt cr db h1 h2 h3
    have hc : creditColumn cr = none := by
      cases cr with
      | none => rfl
      | some s =>
        unfold creditColumn
        cases he : s.data.isEmpty with
        | true =>
          have he' : s.data = [] := by simpa using he
          simp [he']
        | false =>
          have he' : ¬s.data = [] := by simpa using he
          rcases h1 s rfl he with hx | hx <;> simp [he', hx]
    have hd : debitColumn db = none := by
      cases db with
      | none => rfl
      | some s =>
        unfold debitColumn
        cases he : s.data.isEmpty with
        | true =>
          have he' : s.data = [] := by simpa using he
          simp [he']
        | false =>
          have he' : ¬s.data = [] := by simpa using he
          rcases h2 s rfl he with hx | hx <;> simp [he', hx]
    unfold parse_amount_and_type
    rw [hc, hd]
    cases amt with
    | none => rfl
    | some s =>
      cases he : s.data.isEmpty with
      | true =>
        have he' : s.data = [] := by simpa using he
        simp [he']
      | false =>
        have he' : ¬s.data = [] := by simpa using he
        have hx := h3 s rfl he
        unfold combinedAmount
        simp [he', hx]
  · with_unfolding_all rfl

/-- Witness for C2's amended statement: all-absent candidates fail, and the
zero combined candidate yields `(0.0, Debit)`. -/
theorem c2_amended_failure_condition_witness :
    parse_amount_and_type none none none = (none, none) ∧
    parse_amount_and_type (some "0") none none = (some 0, some TxType.Debit) :=
  ⟨c2_amended_failure_condition.1 none none none
      (fun _ hs => Option.noConfusion hs) (fun _ hs => Option.noConfusion hs)
      (fun _ hs => Option.noConfusion hs),
    c2_amended_failure_condition.2⟩
/-- The empty string cannot produce an extracted amount. -/
theorem extract_ne_empty {s : String} {a : ℚ}
    (hx : extract_numeric_amount s = some a) : s.data.isEmpty = false := by
  cases he : s.data.isEmpty with
  | true =>
    unfold extract_numeric_amount at hx
    rw [he] at hx
    simp at hx
  | false => rfl

/-- C3: a free-text combined candidate with positive magnitude, no
credit/debit indicator words, and no structured-CSV tag is inverted and
classified Debit (the default-to-expense bias). -/
theorem c3_free_text_default_debit (s : String) (a : ℚ)
    (hx : extract_numeric_amount s = some a) (hpos : 0 < a)
    (hcr : containsCreditIndicators s = false)
    (hdb : containsDebitIndicators s = false)
    (hcsv : startsWithCSV s = false) :
    parse_amount_and_type (some s) none none = (some (-a), some TxType.Debit) := by
  have he' : ¬s.data = [] := by simpa using extract_ne_empty hx
  have hlt : ¬a < 0 := not_lt.mpr hpos.le
  unfold parse_amount_and_type creditColumn debitColumn combinedAmount
  simp [he', hx, hcr, hdb, hcsv, hlt, hpos]

/-- Witness for C3 at the spec's example `"Amount: $123.45"`. -/
theorem c3_free_text_default_debit_witness :
    parse_amount_and_type (some "Amount: $123.45") none none =
      (some (-(123.45 : ℚ)), some TxType.Debit) :=
  c3_free_text_default_debit "Amount: $123.45" (123.45 : ℚ)
    (by with_unfolding_all rfl) (by norm_num)
    (by decide) (by decide) (by decide)
/-- C4: a structured (CSV-tagged) combined candidate with no indicator
words has its literal sign trusted: a positive field value yields
`(value, Credit)`, a zero-or-negative one yields `(value, Debit)` (the
negative case short-circuits on the extracted value, which equals the
field value). -/
theorem c4_structured_sign_trusted (s : String) (a v : ℚ)
    (hcsv : startsWithCSV s = true)
    (hcr : containsCreditIndicators s = false)
    (hdb : containsDebitIndicators s = false)
    (hx : extract_numeric_amount s = some a) :
    (0 ≤ a →
      pyFloatBuiltin ((stripCSVTag s).filter (fun c => c ≠ ',')) = some v →
      ((0 < v → parse_amount_and_type (some s) none none =
          (some v, some TxType.Credit)) ∧
        (v ≤ 0 → parse_amount_and_type (some s) none none =
          (some v, some TxType.Debit)))) ∧
    (a < 0 → parse_amount_and_type (some s) none none =
      (some a, some TxType.Debit)) := by
  have he' : ¬s.data = [] := by simpa using extract_ne_empty hx
  constructor
  · intro ha hv
    simp only [ne_eq, decide_not] at hv
    have hlt : ¬a < 0 := not_lt.mpr ha
    constructor
    · intro hvpos
      unfold parse_amount_and_type creditColumn debitColumn combinedAmount
      simp [he', hx, hcr, hdb, hcsv, hlt, hv, hvpos]
    · intro hvneg
      have hnv : ¬(0 < v) := not_lt.mpr hvneg
      unfold parse_amount_and_type creditColumn debitColumn combinedAmount
      simp [he', hx, hcr, hdb, hcsv, hlt, hv, hnv]
  · intro ha
    have habs : -|a| = a := by rw [abs_of_neg ha]; ring
    unfold parse_amount_and_type creditColumn debitColumn combinedAmount
    simp [he', hx, ha, habs]

/-- Witness for C4 at the spec's structured example `CSV:123.45`. -/
theorem c4_structured_sign_trusted_witness :
    parse_amount_and_type (some "CSV:123.45") none none =
      (some (123.45 : ℚ), some TxType.Credit) :=
  ((c4_structured_sign_trusted "CSV:123.45" (123.45 : ℚ) (123.45 : ℚ)
    (by decide) (by decide) (by decide) (by with_unfolding_all rfl)).1
    (by norm_num) (by with_unfolding_all rfl)).1 (by norm_num)
/-- Shape of the combined-amount block: both components present or neither. -/
theorem combinedAmount_all_or_nothing (s : String) :
    (∃ a t, combinedAmount s = (some a, some t)) ∨
    combinedAmount s = (none, none) := by
  unfold combinedAmount
  cases hx : extract_numeric_amount s with
  | none => right; rfl
  | some a =>
    simp only []
    split_ifs <;> try (left; exact ⟨_, _, rfl⟩)
    all_goals
      cases hy : pyFloatBuiltin ((stripCSVTag s).filter (fun c => c ≠ ',')) with
      | some v =>
        by_cases hv : 0 < v
        · exact Or.inl ⟨v, TxType.Credit, by simp [hv]⟩
        · exact Or.inl ⟨v, TxType.Debit, by simp [hv]⟩
      | none => exact Or.inl ⟨_, _, rfl⟩

/-- C9: the amount-and-type normalizer never returns a partial result:
either both the amount and the kind are present, or neither is. -/
theorem c9_no_partial_result (amt cr db : Option String) :
    (∃ a t, parse_amount_and_type amt cr db = (some a, some t)) ∨
    parse_amount_and_type amt cr db = (none, none) := by
  unfold parse_amount_and_type
  cases hc : creditColumn cr with
  | some p =>
    obtain ⟨a, t⟩ := p
    exact Or.inl ⟨a, t, rfl⟩
  | none =>
    cases hd : debitColumn db with
    | some p =>
      obtain ⟨a, t⟩ := p
      exact Or.inl ⟨a, t, rfl⟩
    | none =>
      cases amt with
      | none => exact Or.inr rfl
      | some s =>
        cases he : s.data.isEmpty with
        | true => right; simp [he]
        | false =>
          simp only [he, Bool.false_eq_true, if_false]
          exact combinedAmount_all_or_nothing s
/-- Sign discipline of the combined-amount block: a Credit result is
nonnegative, a Debit result is nonpositive. -/
theorem combinedAmount_sign {s : String} {a : ℚ} {t : TxType}
    (h : combinedAmount s = (some a, some t)) :
    (t = TxType.Credit → 0 ≤ a) ∧ (t = TxType.Debit → a ≤ 0) := by
  unfold combinedAmount at h
  cases hx : extract_numeric_amount s with
  | none =>
    rw [hx] at h
    simp at h
  | some a0 =>
    rw [hx] at h
    simp only [] at h
    split_ifs at h with h1 h2 h3 h4 h5
    · simp only [Prod.mk.injEq, Option.some.injEq] at h
      obtain ⟨rfl, rfl⟩ := h
      exact ⟨fun hc => TxType.noConfusion hc,
        fun _ => neg_nonpos.mpr (abs_nonneg a0)⟩
    · simp only [Prod.mk.injEq, Option.some.injEq] at h
      obtain ⟨rfl, rfl⟩ := h
      exact ⟨fun _ => abs_nonneg a0, fun hc => TxType.noConfusion hc⟩
    · cases hy : pyFloatBuiltin ((stripCSVTag s).filter (fun c => c ≠ ',')) with
      | some v =>
        rw [hy] at h
        simp only [] at h
        split_ifs at h with hv
        · simp only [Prod.mk.injEq, Option.some.injEq] at h
          obtain ⟨rfl, rfl⟩ := h
          exact ⟨fun _ => hv.le, fun hc => TxType.noConfusion hc⟩
        · simp only [Prod.mk.injEq, Option.some.injEq] at h
          obtain ⟨rfl, rfl⟩ := h
          exact ⟨fun hc => TxType.noConfusion hc, fun _ => not_lt.mp hv⟩
      | none =>
        rw [hy] at h
        simp only [Prod.mk.injEq, Option.some.injEq] at h
        obtain ⟨rfl, rfl⟩ := h
        exact ⟨fun _ => h4.le, fun hc => TxType.noConfusion hc⟩
    · cases hy : pyFloatBuiltin ((stripCSVTag s).filter (fun c => c ≠ ',')) with
      | some v =>
        rw [hy] at h
        simp only [] at h
        split_ifs at h with hv
        · simp only [Prod.mk.injEq, Option.some.injEq] at h
          obtain ⟨rfl, rfl⟩ := h
          exact ⟨fun _ => hv.le, fun hc => TxType.noConfusion hc⟩
        · simp only [Prod.mk.injEq, Option.some.injEq] at h
          obtain ⟨rfl, rfl⟩ := h
          exact ⟨fun hc => TxType.noConfusion hc, fun _ => not_lt.mp hv⟩
      | none =>
        rw [hy] at h
        simp only [Prod.mk.injEq, Option.some.injEq] at h
        obtain ⟨rfl, rfl⟩ := h
        exact ⟨fun hc => TxType.noConfusion hc, fun _ => not_lt.mp h4⟩
    · simp only [Prod.mk.injEq, Option.some.injEq] at h
      obtain ⟨rfl, rfl⟩ := h
      exact ⟨fun hc => TxType.noConfusion hc, fun _ => neg_nonpos.mpr h5.le⟩
    · simp only [Prod.mk.injEq, Option.some.injEq] at h
      obtain ⟨rfl, rfl⟩ := h
      exact ⟨fun hc => TxType.noConfusion hc, fun _ => not_lt.mp h5⟩
/-- Sign discipline of the full amount-and-type normalizer. -/
theorem parse_amount_sign {amt cr db : Option String} {a : ℚ} {t : TxType}
    (h : parse_amount_and_type amt cr db = (some a, some t)) :
    (t = TxType.Credit → 0 ≤ a) ∧ (t = TxType.Debit → a ≤ 0) := by
  unfold parse_amount_and_type at h
  cases hc : creditColumn cr with
  | some p =>
    obtain ⟨a0, t0⟩ := p
    rw [hc] at h
    have ht0 : t0 = TxType.Credit ∧ 0 ≤ a0 := by
      unfold creditColumn at hc
      cases cr with
      | none => simp at hc
      | some s =>
        cases he : s.data.isEmpty with
        | true =>
          have he' : s.data = [] := by simpa using he
          simp [he'] at hc
        | false =>
          have he' : ¬s.data = [] := by simpa using he
          cases hx : extract_numeric_amount s with
          | none => simp [he', hx] at hc
          | some a1 =>
            simp [List.isEmpty_iff, he', hx] at hc
            obtain ⟨hz, rfl, rfl⟩ := hc
            exact ⟨rfl, abs_nonneg a1⟩
    simp only [Prod.mk.injEq, Option.some.injEq] at h
    obtain ⟨rfl, rfl⟩ := h
    obtain ⟨rfl, hge⟩ := ht0
    exact ⟨fun _ => hge, fun hc' => TxType.noConfusion hc'⟩
  | none =>
    rw [hc] at h
    cases hd : debitColumn db with
    | some p =>
      obtain ⟨a0, t0⟩ := p
      rw [hd] at h
      have ht0 : t0 = TxType.Debit ∧ a0 ≤ 0 := by
        unfold debitColumn at hd
        cases db with
        | none => simp at hd
        | some s =>
          cases he : s.data.isEmpty with
          | true =>
            have he' : s.data = [] := by simpa using he
            simp [he'] at hd
          | false =>
            have he' : ¬s.data = [] := by simpa using he
            cases hx : extract_numeric_amount s with
            | none => simp [he', hx] at hd
            | some a1 =>
              simp [List.isEmpty_iff, he', hx] at hd
              obtain ⟨hz, rfl, rfl⟩ := hd
              exact ⟨rfl, neg_nonpos.mpr (abs_nonneg a1)⟩
      simp only [Prod.mk.injEq, Option.some.injEq] at h
      obtain ⟨rfl, rfl⟩ := h
      obtain ⟨rfl, hle⟩ := ht0
      exact ⟨fun hc' => TxType.noConfusion hc', fun _ => hle⟩
    | none =>
      rw [hd] at h
      cases amt with
      | none => simp at h
      | some s =>
        cases he : s.data.isEmpty with
        | true => simp [he] at h
        | false =>
          simp only [he, Bool.false_eq_true, if_false] at h
          exact combinedAmount_sign h
/-- C1: every NormalizedTransaction emitted by the assembler satisfies the
sign/type invariant: Credit implies a nonnegative amount and Debit implies
a nonpositive amount. -/
theorem c1_sign_type_invariant (e : ExtractedTransaction) (src : String)
    (nt : NormalizedTransaction) (h : normalizeTransaction e src = some nt) :
    (nt.transaction_type = TxType.Credit → 0 ≤ nt.amount) ∧
    (nt.transaction_type = TxType.Debit → nt.amount ≤ 0) := by
  unfold normalizeTransaction at h
  simp only [] at h
  cases hpd : (match e.potential_date_str with
    | some ds => if ds.data.isEmpty then none else parse_date_robustly ds
    | none => none : Option PyDate) with
  | none => rw [hpd] at h; simp at h
  | some d =>
    rw [hpd] at h
    cases hp : parse_amount_and_type e.potential_amount_str
        e.potential_credit_str e.potential_debit_str with
    | mk oa ot =>
      rw [hp] at h
      cases oa with
      | none => simp at h
      | some a =>
        cases ot with
        | none => simp at h
        | some t =>
          simp only [Option.some.injEq] at h
          have hs := parse_amount_sign hp
          rw [← h]
          exact hs
/-- The concrete transaction produced in the C1 witness scenario (the
spec's structured end-to-end example). -/
def c1WitnessTransaction : NormalizedTransaction :=
  { date := ⟨2025, 7, 31⟩
    description := "Test Transaction"
    amount := (123.45 : ℚ)
    transaction_type := TxType.Credit
    original_source_file := "test.csv"
    processing_notes :=
      ["Date parsed from: 07/31/2025", "Amount parsed from: CSV:123.45",
        "Description cleaned from: Test Transaction"] }

/-- Witness for C1: the assembler emits the structured-row example
transaction, and it satisfies the sign/type invariant. -/
theorem c1_sign_type_invariant_witness :
    (c1WitnessTransaction.transaction_type = TxType.Credit →
      0 ≤ c1WitnessTransaction.amount) ∧
    (c1WitnessTransaction.transaction_type = TxType.Debit →
      c1WitnessTransaction.amount ≤ 0) :=
  c1_sign_type_invariant
    ⟨some "07/31/2025", some "Test Transaction", some "CSV:123.45", none, none⟩
    "test.csv" c1WitnessTransaction (by with_unfolding_all rfl)
/-- C6: for every numeric `A/B/YYYY`-shaped date string for which both the
month-first and the day-first readings are valid calendar dates, the date
normalizer returns the month-first interpretation. -/
theorem c6_month_first_wins (s : String) (a b y : ℕ)
    (htriple : numericTriple (stripTrailingNoise (pyStrip s.data)) = some (a, b, y))
    (hmf : validDate y a b = true) (hdf : validDate y b a = true) :
    parse_date_robustly s = some ⟨y, a, b⟩ := by
  have hne : s.data.isEmpty = false := by
    cases he : s.data.isEmpty with
    | true =>
      have he' : s.data = [] := by simpa using he
      rw [he'] at htriple
      simp [pyStrip, stripTrailingNoise, numericTriple] at htriple
    | false => rfl
  unfold parse_date_robustly
  rw [hne]
  simp only [Bool.false_eq_true, if_false, htriple]
  unfold dateutilNumericParse
  simp [hmf]

/-- Witness for C6 at the ambiguous example "03/04/2025": both readings are
valid and the result is March 4, 2025 (never April 3). -/
theorem c6_month_first_wins_witness :
    validDate 2025 3 4 = true ∧ validDate 2025 4 3 = true ∧
    parse_date_robustly "03/04/2025" = some ⟨2025, 3, 4⟩ :=
  ⟨by decide, by decide,
    c6_month_first_wins "03/04/2025" 3 4 2025 (by decide) (by decide) (by decide)⟩
/-- C7: a record whose free text contains no date-shaped substring mines an
empty date-candidate list, and the assembler then rejects it — no
NormalizedTransaction is produced, whatever the other candidates are. -/
theorem c7_no_date_rejected (text : String)
    (hempty : extract_dates_from_text text = [])
    (descr amtS crS dbS : Option String) (src : String) :
    normalizeTransaction
      ⟨mineDateCandidate text, descr, amtS, crS, dbS⟩ src = none := by
  unfold mineDateCandidate
  rw [hempty]
  unfold normalizeTransaction
  rfl

/-- Witness for C7: free text with a money amount but no date-shaped
substring is rejected. -/
theorem c7_no_date_rejected_witness :
    normalizeTransaction
      ⟨mineDateCandidate "Lunch at cafe 12.50",
        some "Lunch at cafe", some "12.50", none, none⟩ "receipt.txt" = none :=
  c7_no_date_rejected "Lunch at cafe 12.50" (by with_unfolding_all rfl)
    (some "Lunch at cafe") (some "12.50") none none "receipt.txt"
/-- A word as produced by `splitWS`: nonempty and whitespace-free. -/
def wordOK (w : List Char) : Prop :=
  w ≠ [] ∧ ∀ c ∈ w, isWS c = false

/-- Words produced by the split worker are nonempty and whitespace-free. -/
theorem splitWSAux_words (l : List Char) :
    ∀ cur, (∀ c ∈ cur, isWS c = false) →
      ∀ w ∈ splitWSAux cur l, wordOK w := by
  induction l with
  | nil =>
    intro cur hcur w hw
    unfold splitWSAux at hw
    by_cases hc : cur.isEmpty
    · simp [hc] at hw
    · simp only [hc, Bool.false_eq_true, if_false, List.mem_singleton] at hw
      subst hw
      refine ⟨by simpa using (by simpa using hc : cur ≠ []), ?_⟩
      intro c hcmem
      exact hcur c (List.mem_reverse.mp hcmem)
  | cons c cs ih =>
    intro cur hcur w hw
    unfold splitWSAux at hw
    by_cases hws : isWS c
    · rw [if_pos hws] at hw
      by_cases hc : cur.isEmpty
      · rw [if_pos hc] at hw
        exact ih [] (by simp) w hw
      · rw [if_neg hc] at hw
        rcases List.mem_cons.mp hw with rfl | hw'
        · refine ⟨by simpa using (by simpa using hc : cur ≠ []), ?_⟩
          intro x hx
          exact hcur x (List.mem_reverse.mp hx)
        · exact ih [] (by simp) w hw'
    · rw [if_neg hws] at hw
      refine ih (c :: cur) ?_ w hw
      intro x hx
      rcases List.mem_cons.mp hx with rfl | hx'
      · simpa using hws
      · exact hcur x hx'

/-- Words produced by Python `split()` are nonempty and whitespace-free. -/
theorem splitWS_words (l : List Char) : ∀ w ∈ splitWS l, wordOK w :=
  splitWSAux_words l [] (by simp)

/-- Capitalizing keeps a word nonempty and whitespace-free. -/
theorem pyCapitalize_wordOK {w : List Char} (h : wordOK w) :
    wordOK (pyCapitalize w) := by
  obtain ⟨hne, hfree⟩ := h
  cases w with
  | nil => exact absurd rfl hne
  | cons c cs =>
    refine ⟨by simp [pyCapitalize], ?_⟩
    intro x hx
    unfold pyCapitalize at hx
    rcases List.mem_cons.mp hx with rfl | hx'
    · rw [isWS_toUpper]
      exact hfree c (List.mem_cons_self c cs)
    · obtain ⟨y, hy, rfl⟩ := List.mem_map.mp hx'
      rw [isWS_toLower]
      exact hfree y (List.mem_cons_of_mem c hy)

/-- The title-casing step keeps a word nonempty and whitespace-free. -/
theorem capWord_wordOK {w : List Char} (h : wordOK w) : wordOK (capWord w) := by
  unfold capWord
  split_ifs with hcase
  · exact h
  · exact pyCapitalize_wordOK h

/-- A whitespace-free list has no two adjacent whitespace characters. -/
theorem noAdjWS_of_wsfree {l : List Char} (h : ∀ c ∈ l, isWS c = false) :
    noAdjWS l = true := by
  induction l with
  | nil => rfl
  | cons c cs ih =>
    cases cs with
    | nil => rfl
    | cons c2 cs2 =>
      unfold noAdjWS
      rw [h c (List.mem_cons_self _ _)]
      simp only [Bool.false_and, Bool.not_false, Bool.true_and]
      exact ih (fun x hx => h x (List.mem_cons_of_mem c hx))

/-- Composition of `noAdjWS` across an append, given the boundary pair is not all-space. -/
theorem noAdjWS_append {xs ys : List Char} (hxs : noAdjWS xs = true)
    (hys : noAdjWS ys = true)
    (hb : ∀ x y, xs.getLast? = some x → ys.head? = some y →
      (isWS x && isWS y) = false) : noAdjWS (xs ++ ys) = true := by
  induction xs with
  | nil => simpa using hys
  | cons x xs' ih =>
    cases xs' with
    | nil =>
      cases ys with
      | nil => rfl
      | cons y ys' =>
        simp only [List.singleton_append]
        unfold noAdjWS
        rw [hb x y rfl rfl]
        simpa using hys
    | cons x2 xs2 =>
      unfold noAdjWS at hxs ⊢
      simp only [Bool.and_eq_true, Bool.not_eq_true'] at hxs
      obtain ⟨h1, h2⟩ := hxs
      simp only [List.cons_append, Bool.and_eq_true, Bool.not_eq_true']
      refine ⟨h1, ?_⟩
      have := ih h2 (fun a b ha hb' => hb a b (by rwa [List.getLast?_cons_cons]) hb')
      simpa using this
/-- Head of a joined word list is the head of its first word. -/
theorem joinWords_head {w : List Char} (ws : List (List Char)) (hw : w ≠ []) :
    (joinWords (w :: ws)).head? = w.head? := by
  cases ws with
  | nil => rfl
  | cons w' ws' =>
    cases w with
    | nil => exact absurd rfl hw
    | cons c cs => rfl

/-- A joined nonempty word list is nonempty. -/
theorem joinWords_ne_nil {w : List Char} (ws : List (List Char)) (hw : w ≠ []) :
    joinWords (w :: ws) ≠ [] := by
  intro hcontra
  have := joinWords_head ws hw
  rw [hcontra] at this
  cases w with
  | nil => exact absurd rfl hw
  | cons c cs => simp at this

/-- Last element of a joined word list is the last of its last word. -/
theorem joinWords_getLast (w : List Char) (ws : List (List Char))
    (h : ∀ u ∈ (w :: ws), wordOK u) :
    ∃ u ∈ (w :: ws), (joinWords (w :: ws)).getLast? = u.getLast? ∧ u ≠ [] := by
  induction ws generalizing w with
  | nil => exact ⟨w, List.mem_singleton_self w, rfl, (h w (List.mem_singleton_self w)).1⟩
  | cons w' ws' ih =>
    have hrec := ih w' (fun u hu => h u (List.mem_cons_of_mem w hu))
    obtain ⟨u, hu, heq, hune⟩ := hrec
    refine ⟨u, List.mem_cons_of_mem w hu, ?_, hune⟩
    show (w ++ ' ' :: joinWords (w' :: ws')).getLast? = u.getLast?
    rw [List.getLast?_append_cons]
    have hne : joinWords (w' :: ws') ≠ [] :=
      joinWords_ne_nil ws'
        (h w' (List.mem_cons_of_mem w (List.mem_cons_self w' ws'))).1
    obtain ⟨x, hx⟩ := Option.isSome_iff_exists.mp (List.getLast?_isSome.mpr hne)
    rw [show (' ' :: joinWords (w' :: ws')) = [' '] ++ joinWords (w' :: ws')
        from rfl,
      List.getLast?_append, hx]
    rw [hx] at heq
    simpa using heq
/-- Decompose the whitespace-normal form into its three components. -/
theorem wsNormalized_parts {l : List Char} (h : wsNormalized l = true) :
    noAdjWS l = true ∧ (∀ c, l.head? = some c → isWS c = false) ∧
      (∀ c, l.getLast? = some c → isWS c = false) := by
  unfold wsNormalized at h
  simp only [Bool.and_eq_true] at h
  obtain ⟨⟨hh, hl⟩, hadj⟩ := h
  refine ⟨hadj, ?_, ?_⟩
  · intro c hc
    rw [hc] at hh
    simpa using hh
  · intro c hc
    rw [hc] at hl
    simpa using hl

/-- Assemble the whitespace-normal form from its three components. -/
theorem wsNormalized_mk {l : List Char} (hadj : noAdjWS l = true)
    (hh : ∀ c, l.head? = some c → isWS c = false)
    (hl : ∀ c, l.getLast? = some c → isWS c = false) :
    wsNormalized l = true := by
  unfold wsNormalized
  have h1 : (match l.head? with | some c => !isWS c | none => true) = true := by
    cases hc : l.head? with
    | none => rfl
    | some c => simpa using hh c hc
  have h2 : (match l.getLast? with | some c => !isWS c | none => true) = true := by
    cases hc : l.getLast? with
    | none => rfl
    | some c => simpa using hl c hc
  rw [h1, h2, hadj]
  rfl

/-- Joining good words yields a whitespace-normal string whose whitespace
characters are all plain spaces. -/
theorem joinWords_normal (ws : List (List Char)) (h : ∀ w ∈ ws, wordOK w) :
    wsNormalized (joinWords ws) = true ∧ allWSSpace (joinWords ws) = true := by
  induction ws with
  | nil => exact ⟨rfl, rfl⟩
  | cons w ws' ih =>
    have hw := h w (List.mem_cons_self w ws')
    cases ws' with
    | nil =>
      refine ⟨wsNormalized_mk (noAdjWS_of_wsfree hw.2) ?_ ?_, ?_⟩
      · intro c hc
        have hc' : w.head? = some c := hc
        exact hw.2 c (List.mem_of_mem_head? (Option.mem_def.mpr hc'))
      · intro c hc
        exact hw.2 c (List.mem_of_getLast?_eq_some hc)
      · unfold allWSSpace
        rw [List.all_eq_true]
        intro c hc
        simp [hw.2 c hc]
    | cons w' ws'' =>
      obtain ⟨ihn, ihs⟩ := ih (fun u hu => h u (List.mem_cons_of_mem w hu))
      obtain ⟨hadjJ, hheadJ, hlastJ⟩ := wsNormalized_parts ihn
      have hw' := h w' (List.mem_cons_of_mem w (List.mem_cons_self w' ws''))
      have hJne : joinWords (w' :: ws'') ≠ [] := joinWords_ne_nil ws'' hw'.1
      have hJshape : joinWords (w :: w' :: ws'') =
          w ++ ' ' :: joinWords (w' :: ws'') := rfl
      have hadjSpace : noAdjWS (' ' :: joinWords (w' :: ws'')) = true := by
        cases hJ : joinWords (w' :: ws'') with
        | nil => rfl
        | cons j js =>
          unfold noAdjWS
          have hj : isWS j = false := by
            apply hheadJ
            rw [hJ]
            rfl
          rw [hj]
          simp only [Bool.and_false, Bool.not_false, Bool.true_and]
          have := hadjJ
          rw [hJ] at this
          exact this
      constructor
      · rw [hJshape]
        apply wsNormalized_mk
        · apply noAdjWS_append (noAdjWS_of_wsfree hw.2) hadjSpace
          intro x y hx _
          rw [hw.2 x (List.mem_of_getLast?_eq_some hx)]
          rfl
        · intro c hc
          rw [← hJshape, joinWords_head (w' :: ws'') hw.1] at hc
          exact hw.2 c (List.mem_of_mem_head? (Option.mem_def.mpr hc))
        · intro c hc
          rw [← hJshape] at hc
          obtain ⟨u, hu, hueq, hune⟩ :=
            joinWords_getLast w (w' :: ws'') h
          rw [hueq] at hc
          exact (h u hu).2 c (List.mem_of_getLast?_eq_some hc)
      · rw [hJshape]
        unfold allWSSpace
        rw [List.all_append]
        have h1 : w.all (fun c => !isWS c || c = ' ') = true := by
          rw [List.all_eq_true]
          intro c hc
          simp [hw.2 c hc]
        rw [h1]
        simp only [Bool.true_and, List.all_cons]
        refine (Bool.and_eq_true _ _).mpr ⟨by simp, ihs⟩
/-- The character list of a packed string. -/
theorem string_data_mk (l : List Char) : (String.mk l).data = l := rfl

/-- The description cleaner's output (for a truthy input) is a join of
good words, hence whitespace-normal with only plain spaces. -/
theorem cleanDescCore_normal (l : List Char) :
    wsNormalized (cleanDescCore l) = true ∧ allWSSpace (cleanDescCore l) = true := by
  unfold cleanDescCore
  apply joinWords_normal
  intro w hw
  obtain ⟨w0, hw0, rfl⟩ := List.mem_map.mp hw
  exact capWord_wordOK (splitWS_words _ w0 hw0)

/-- Case equation: cleaning a falsy description gives the empty string. -/
theorem clean_description_empty {s : String} (he : s.data.isEmpty) :
    clean_description s = "" := by
  simp only [clean_description, he, if_true]

/-- Case equation: cleaning a truthy description runs the cleaning body. -/
theorem clean_description_body {s : String} (he : s.data.isEmpty = false) :
    clean_description s = String.mk (cleanDescCore s.data) := by
  simp only [clean_description, he, Bool.false_eq_true, if_false]

/-- Case equation at the level of character lists. -/
theorem clean_description_data {s : String} (he : s.data.isEmpty = false) :
    (clean_description s).data = cleanDescCore s.data := by
  rw [clean_description_body he]

/-- C10: `clean_description` always returns a whitespace-normalized string
(no leading or trailing whitespace, no two consecutive whitespace
characters), and the empty input yields the empty string. -/
theorem c10_whitespace_normalized :
    (∀ s : String, wsNormalized (clean_description s).data = true) ∧
    clean_description "" = "" := by
  constructor
  · intro s
    cases he : s.data.isEmpty with
    | true =>
      rw [clean_description_empty he]
      rfl
    | false =>
      rw [clean_description_data he]
      exact (cleanDescCore_normal s.data).1
  · rfl
/-- Dropping leading whitespace is the identity on ws-normal strings. -/
theorem dropWhile_isWS_id {l : List Char}
    (hh : ∀ c, l.head? = some c → isWS c = false) : l.dropWhile isWS = l := by
  cases l with
  | nil => rfl
  | cons c cs =>
    rw [List.dropWhile_cons, hh c rfl]
    simp

/-- Stripping is the identity on strings with non-whitespace edges. -/
theorem pyStrip_id {l : List Char}
    (hh : ∀ c, l.head? = some c → isWS c = false)
    (hl : ∀ c, l.getLast? = some c → isWS c = false) : pyStrip l = l := by
  unfold pyStrip
  rw [dropWhile_isWS_id hh]
  rw [dropWhile_isWS_id (fun c hc => hl c (by rwa [← List.head?_reverse]))]
  exact List.reverse_reverse l

/-- Collapsing whitespace runs is the identity on strings with no adjacent
whitespace whose whitespace is all plain spaces. -/
theorem collapseRuns_id {l : List Char} (hadj : noAdjWS l = true)
    (hsp : allWSSpace l = true) : collapseRuns l = l := by
  induction l with
  | nil => rfl
  | cons c cs ih =>
    cases cs with
    | nil =>
      unfold collapseRuns
      cases hws : isWS c with
      | false => rfl
      | true =>
        have hc : c = ' ' := by
          have := (List.all_eq_true.mp hsp) c (List.mem_cons_self c [])
          simpa [hws] using this
        rw [hc]
        simp
    | cons c2 cs2 =>
      unfold noAdjWS at hadj
      simp only [Bool.and_eq_true, Bool.not_eq_true'] at hadj
      obtain ⟨h1, h2⟩ := hadj
      have hsp2 : allWSSpace (c2 :: cs2) = true := by
        unfold allWSSpace at hsp ⊢
        rw [List.all_eq_true] at hsp ⊢
        exact fun x hx => hsp x (List.mem_cons_of_mem c hx)
      unfold collapseRuns
      rw [h1]
      simp only [Bool.false_eq_true, if_false]
      have hcfix : (if isWS c then ' ' else c) = c := by
        cases hws : isWS c with
        | false => simp [hws]
        | true =>
          have := (List.all_eq_true.mp hsp) c (List.mem_cons_self _ _)
          have hc : c = ' ' := by simpa [hws] using this
          simp [hws, hc]
      rw [hcfix, ih h2 hsp2]

/-- The phrase-removal scanner is the identity when the phrase does not
occur (case-insensitively) in the input. -/
theorem phraseSubAux_id (p : List Char) :
    ∀ fuel l, containsSubCI p l = false → phraseSubAux p fuel l = l := by
  intro fuel
  induction fuel with
  | zero => intro l _; rfl
  | succ f ih =>
    intro l hl
    cases l with
    | nil => rfl
    | cons c cs =>
      unfold containsSubCI at hl
      rw [Bool.or_eq_false_iff] at hl
      obtain ⟨hci, hrest⟩ := hl
      unfold phraseSubAux
      rw [hci]
      simp only [Bool.and_false, Bool.false_eq_true, if_false]
      rw [ih cs hrest]

/-- One boilerplate removal pass is the identity when its phrase is absent. -/
theorem subPhraseWS_id {p : String} {l : List Char}
    (h : containsSubCI p.data l = false) : subPhraseWS p l = l :=
  phraseSubAux_id p.data l.length l h

/-- The whole boilerplate loop is the identity when no phrase occurs. -/
theorem phraseFold_id (ps : List String) (l : List Char)
    (h : ∀ p ∈ ps, containsSubCI p.data l = false) :
    ps.foldl (fun d p => subPhraseWS p d) l = l := by
  induction ps with
  | nil => rfl
  | cons p ps' ih =>
    rw [List.foldl_cons, subPhraseWS_id (h p (List.mem_cons_self p ps'))]
    exact ih (fun q hq => h q (List.mem_cons_of_mem p hq))

/-- The merchant loop is the identity when no abbreviation key occurs in
the upper-cased input. -/
theorem merchFold_id (prs : List (String × String)) (l : List Char)
    (h : ∀ pr ∈ prs, containsSub pr.1.data (upperAll l) = false) :
    prs.foldl (fun d pr =>
      if containsSub pr.1.data (upperAll d) then wordSubCI pr.1 pr.2 d else d) l = l := by
  induction prs with
  | nil => rfl
  | cons pr prs' ih
    =>
    rw [List.foldl_cons]
    rw [h pr (List.mem_cons_self pr prs')]
    simp only [Bool.false_eq_true, if_false]
    exact ih (fun q hq => h q (List.mem_cons_of_mem pr hq))
/-- End-of-string reference-pattern subs are the identity when no match. -/
theorem stripDateAtEnd_id {l : List Char} (h : findDateEnd l = none) :
    stripDateAtEnd l = l := by
  unfold stripDateAtEnd
  rw [h]

/-- No trailing long digit run: the id-number sub is the identity. -/
theorem stripIdAtEnd_id {l : List Char} (h : findIdEnd l = none) :
    stripIdAtEnd l = l := by
  unfold stripIdAtEnd
  rw [h]

/-- No trailing `#`-number: the hash sub is the identity. -/
theorem stripHashAtEnd_id {l : List Char} (h : findHashEnd l = none) :
    stripHashAtEnd l = l := by
  unfold stripHashAtEnd
  rw [h]

/-- Split-worker equation: non-whitespace head goes to the accumulator. -/
theorem splitWSAux_cons_nonws {c : Char} (hc : isWS c = false)
    (cur l : List Char) : splitWSAux cur (c :: l) = splitWSAux (c :: cur) l := by
  show (if isWS c = true then
      if cur.isEmpty then splitWSAux [] l else cur.reverse :: splitWSAux [] l
    else splitWSAux (c :: cur) l) = splitWSAux (c :: cur) l
  rw [hc]
  simp

/-- Split-worker equation: whitespace head emits the accumulated word. -/
theorem splitWSAux_cons_ws {c : Char} (hc : isWS c = true) (cur l : List Char) :
    splitWSAux cur (c :: l) =
      if cur.isEmpty then splitWSAux [] l else cur.reverse :: splitWSAux [] l := by
  show (if isWS c = true then
      if cur.isEmpty then splitWSAux [] l else cur.reverse :: splitWSAux [] l
    else splitWSAux (c :: cur) l) = _
  rw [hc]
  simp

/-- Splitting after a whitespace-free word walks it into the accumulator. -/
theorem splitWSAux_walk_word {w : List Char}
    (hw : ∀ c ∈ w, isWS c = false) (r : List Char) :
    ∀ cur, splitWSAux cur (w ++ r) = splitWSAux (w.reverse ++ cur) r := by
  induction w with
  | nil => intro cur; rfl
  | cons c cs ih =>
    intro cur
    have hc : isWS c = false := hw c (List.mem_cons_self c cs)
    rw [List.cons_append, splitWSAux_cons_nonws hc,
      ih (fun x hx => hw x (List.mem_cons_of_mem c hx)) (c :: cur)]
    congr 1
    simp

/-- Splitting a join of good words recovers exactly the words. -/
theorem splitWS_join (ws : List (List Char)) (h : ∀ w ∈ ws, wordOK w) :
    splitWS (joinWords ws) = ws := by
  induction ws with
  | nil => rfl
  | cons w ws' ih =>
    obtain ⟨hne, hfree⟩ := h w (List.mem_cons_self w ws')
    cases ws' with
    | nil =>
      show splitWSAux [] (joinWords [w]) = [w]
      have hjw : joinWords [w] = w ++ [] := by simp [joinWords]
      rw [hjw, splitWSAux_walk_word hfree [] []]
      show (if (w.reverse ++ []).isEmpty then [] else [(w.reverse ++ []).reverse]) = [w]
      have hrev : (w.reverse ++ []).isEmpty = false := by
        simp [List.isEmpty_iff, hne]
      rw [hrev]
      simp
    | cons w' ws'' =>
      show splitWSAux [] (joinWords (w :: w' :: ws'')) = w :: w' :: ws''
      have hshape : joinWords (w :: w' :: ws'') =
          w ++ ' ' :: joinWords (w' :: ws'') := rfl
      rw [hshape, splitWSAux_walk_word hfree _ [],
        splitWSAux_cons_ws (by decide)]
      have hrev : (w.reverse ++ []).isEmpty = false := by
        simp [List.isEmpty_iff, hne]
      rw [hrev]
      simp only [Bool.false_eq_true, if_false]
      have hih := ih (fun u hu => h u (List.mem_cons_of_mem w hu))
      unfold splitWS at hih
      rw [hih]
      congr 1
      simp
/-- Python `capitalize` is idempotent. -/
theorem pyCapitalize_pyCapitalize (w : List Char) :
    pyCapitalize (pyCapitalize w) = pyCapitalize w := by
  cases w with
  | nil => rfl
  | cons c cs =>
    show c.toUpper.toUpper :: (cs.map Char.toLower).map Char.toLower =
      c.toUpper :: cs.map Char.toLower
    rw [toUpper_toUpper, List.map_map]
    congr 1
    rw [List.map_eq_map_iff]
    intro x _
    exact toLower_toLower x

/-- The per-word title-casing step is idempotent. -/
theorem capWord_capWord (w : List Char) : capWord (capWord w) = capWord w := by
  unfold capWord
  by_cases h1 : (pyIsUpper w && decide (w.length > 1)) = true
  · rw [if_pos h1, if_pos h1]
  · rw [if_neg h1]
    by_cases h2 : (pyIsUpper (pyCapitalize w) && decide ((pyCapitalize w).length > 1)) = true
    · rw [if_pos h2]
    · rw [if_neg h2]
      exact pyCapitalize_pyCapitalize w

/-- The cleaned description is a join of good, already-title-cased words. -/
theorem cleanDescCore_words (l : List Char) :
    ∃ ws0, cleanDescCore l = joinWords ws0 ∧
      (∀ w ∈ ws0, wordOK w ∧ capWord w = w) := by
  unfold cleanDescCore
  refine ⟨_, rfl, ?_⟩
  intro w hw
  obtain ⟨w0, hw0, rfl⟩ := List.mem_map.mp hw
  exact ⟨capWord_wordOK (splitWS_words _ w0 hw0), capWord_capWord w0⟩
/-- Strings with the same character list are equal. -/
theorem string_eq_of_data_eq {a b : String} (h : a.data = b.data) : a = b := by
  cases a
  cases b
  exact congrArg String.mk h

/-- C8 amended: `clean_description` is idempotent on every input whose
cleaned output contains no boilerplate phrase (case-insensitively), no
merchant-abbreviation key in its upper-cased form, and no trailing date,
long-digit-run or `#`-number pattern. -/
theorem c8_amended_conditional_idempotence (s : String)
    (hphr : ∀ p ∈ COMMON_PREFIX_SUFFIX,
      containsSubCI p.data (clean_description s).data = false)
    (hmer : ∀ pr ∈ MERCHANT_NORMALIZATIONS,
      containsSub pr.1.data (upperAll (clean_description s).data) = false)
    (hdate : findDateEnd (clean_description s).data = none)
    (hid : findIdEnd (clean_description s).data = none)
    (hhash : findHashEnd (clean_description s).data = none) :
    clean_description (clean_description s) = clean_description s := by
  cases hoe : (clean_description s).data.isEmpty with
  | true =>
    rw [clean_description_empty hoe]
    exact (string_eq_of_data_eq (by simpa using hoe)).symm
  | false =>
    rw [clean_description_body hoe]
    apply string_eq_of_data_eq
    rw [string_data_mk]
    have hse : s.data.isEmpty = false := by
      cases hx : s.data.isEmpty with
      | true =>
        exfalso
        rw [clean_description_empty hx] at hoe
        simp at hoe
      | false => rfl
    have hdata : (clean_description s).data = cleanDescCore s.data :=
      clean_description_data hse
    obtain ⟨hnorm, hspace⟩ : wsNormalized (clean_description s).data = true ∧
        allWSSpace (clean_description s).data = true := by
      rw [hdata]
      exact cleanDescCore_normal s.data
    obtain ⟨hadj, hhead, hlast⟩ := wsNormalized_parts hnorm
    obtain ⟨ws0, hws0, hprops⟩ := cleanDescCore_words s.data
    have hodata : (clean_description s).data = joinWords ws0 := by
      rw [hdata, hws0]
    show joinWords ((splitWS
        (MERCHANT_NORMALIZATIONS.foldl (fun d pr =>
          if containsSub pr.1.data (upperAll d) then wordSubCI pr.1 pr.2 d else d)
          (pyStrip (collapseRuns (stripHashAtEnd (stripIdAtEnd (stripDateAtEnd
            (COMMON_PREFIX_SUFFIX.foldl (fun d p => subPhraseWS p d)
              (pyStrip (clean_description s).data))))))))).map capWord) =
      (clean_description s).data
    rw [pyStrip_id hhead hlast]
    rw [phraseFold_id _ _ hphr]
    rw [stripDateAtEnd_id hdate, stripIdAtEnd_id hid, stripHashAtEnd_id hhash]
    rw [collapseRuns_id hadj hspace]
    rw [pyStrip_id hhead hlast]
    rw [merchFold_id _ _ hmer]
    rw [hodata, splitWS_join ws0 (fun w hw => (hprops w hw).1)]
    have hmap : ws0.map capWord = ws0 := by
      rw [List.map_congr_left (fun w hw => (hprops w hw).2)]
      exact List.map_id' ws0
    rw [hmap]
/-- C8 counterexample: `clean_description` is not idempotent. Cleaning
"MCD" yields "Mcdonald's" (merchant expansion, then capitalize), but
cleaning that output again matches the `MCDONALD` merchant key inside it
and produces "Mcdonald's's". -/
theorem c8_not_idempotent_counterexample :
    clean_description "MCD" = "Mcdonald\x27s" ∧
    clean_description (clean_description "MCD") = "Mcdonald\x27s\x27s" ∧
    clean_description (clean_description "MCD") ≠ clean_description "MCD" := by
  have h1 : clean_description "MCD" = "Mcdonald\x27s" := by with_unfolding_all rfl
  have h2 : clean_description "Mcdonald\x27s" = "Mcdonald\x27s\x27s" := by
    with_unfolding_all rfl
  refine ⟨h1, by rw [h1, h2], ?_⟩
  rw [h1, h2]
  decide

/-- Witness for the amended C8 at a merchant-free, boilerplate-free input. -/
theorem c8_amended_conditional_idempotence_witness :
    clean_description (clean_description "Lunch with friends") =
      clean_description "Lunch with friends" :=
  c8_amended_conditional_idempotence "Lunch with friends"
    (by decide) (by decide) (by decide) (by decide) (by decide)
